import Mathlib

/-!
# Verification of `src/utils/colorUtils.js`

A shallow embedding of the color-utility module: hex ↔ HSL conversion,
complementary-color computation, the five harmony-search functions over a
color collection, and the smart-palette suggestion aggregator.

Modelling conventions:
* JavaScript numbers are modelled by exact rationals (`ℚ`); the module only
  performs field operations, comparisons, `Math.abs`, `Math.min`/`Math.max`,
  `%` and `Math.round` on them.
* `Math.round` rounds half toward +∞, i.e. `⌊q + 1/2⌋` (`jsRound`).
* Fallible code paths (malformed hex input, where the JS code silently
  produces `NaN`-valued fields) are modelled with `Option`: a failed parse
  returns `none`, and every numeric comparison against a `NaN` value in the
  JS code evaluates to `false`, which the embedding mirrors by skipping the
  corresponding record when a conversion returns `none`.
* `Array.prototype.sort` is modelled as a stable insertion sort
  (`stableSort`) over the boolean comparator derived from the JS numeric
  comparator; a comparator result of `NaN` (which ECMAScript's `SortCompare`
  treats as `+0`, i.e. a tie) is modelled by the comparator returning `true`
  both ways.
-/

namespace ColorUtils

/-- JS `Math.round`: rounds half toward positive infinity. -/
def jsRound (q : ℚ) : ℤ := ⌊q + 1/2⌋

/-- JS `Math.trunc` (used to define the JS `%` operator on rationals). -/
def jsTrunc (q : ℚ) : ℤ := if 0 ≤ q then ⌊q⌋ else ⌈q⌉

/-- JS `%` on numbers: `a % b = a - b * trunc(a / b)` (sign of the dividend). -/
def jsMod (a b : ℚ) : ℚ := a - b * (jsTrunc (a / b) : ℚ)

/-- Value of one hex digit, as consumed by `parseInt(·, 16)`: accepts
`0`-`9`, `a`-`f`, `A`-`F`.  A non-hex-digit character makes the JS call
return `NaN`; modelled as `none`. -/
def hexDigitVal (c : Char) : Option ℕ :=
  if 48 ≤ c.toNat ∧ c.toNat ≤ 57 then some (c.toNat - 48)
  else if 97 ≤ c.toNat ∧ c.toNat ≤ 102 then some (c.toNat - 87)
  else if 65 ≤ c.toNat ∧ c.toNat ≤ 70 then some (c.toNat - 55)
  else none

/-- JS `hex.replace('#', '')`: removes the first occurrence of `'#'`. -/
def removeFirstHash : List Char → List Char
  | [] => []
  | c :: cs => if c = '#' then cs else c :: removeFirstHash cs

/-- The three `parseInt(hex.substr(2*i, 2), 16)` calls of `hexToHsl` /
`getColorBrightness`: reads the first six characters as three 2-digit hex
numbers.  Shorter input or a non-hex digit yields `NaN` in JS; modelled as
`none`. -/
def parseRgb : List Char → Option (ℕ × ℕ × ℕ)
  | c1 :: c2 :: c3 :: c4 :: c5 :: c6 :: _ =>
    match hexDigitVal c1, hexDigitVal c2, hexDigitVal c3,
        hexDigitVal c4, hexDigitVal c5, hexDigitVal c6 with
    | some d1, some d2, some d3, some d4, some d5, some d6 =>
      some (16 * d1 + d2, 16 * d3 + d4, 16 * d5 + d6)
    | _, _, _, _, _, _ => none
  | _ => none

/-- The `{h, s, l}` record returned by `hexToHsl` (all integer-rounded). -/
structure Hsl where
  h : ℤ
  s : ℤ
  l : ℤ
deriving DecidableEq, Repr

/-- Core of `hexToHsl` after the hex string is parsed into the three 8-bit
channels `R`, `G`, `B`.  Mirrors the JS arithmetic: normalize to `[0,1]`,
compute max / min / diff, lightness, saturation, six-sector hue, and round
`h * 360`, `s * 100`, `l * 100`.  The JS `switch (max)` compares with strict
equality against `r`, then `g`, then `b`. -/
def rgbToHsl (R G B : ℕ) : Hsl :=
  let r : ℚ := R / 255
  let g : ℚ := G / 255
  let b : ℚ := B / 255
  let mx := max r (max g b)
  let mn := min r (min g b)
  let diff := mx - mn
  let l : ℚ := (mx + mn) / 2
  if diff = 0 then
    ⟨0, 0, jsRound (l * 100)⟩
  else
    let s : ℚ := if l > 1/2 then diff / (2 - mx - mn) else diff / (mx + mn)
    let hRaw : ℚ :=
      if mx = r then (g - b) / diff + (if g < b then 6 else 0)
      else if mx = g then (b - r) / diff + 2
      else (r - g) / diff + 4
    let h := hRaw / 6
    ⟨jsRound (h * 360), jsRound (s * 100), jsRound (l * 100)⟩

/-- `hexToHsl(hex)`: strips one `'#'`, parses three 2-hex-digit channels,
and converts to rounded HSL.  The JS function returns `NaN`-valued fields on
malformed input; modelled as `none`. -/
def hexToHsl (hex : String) : Option Hsl :=
  (parseRgb (removeFirstHash hex.data)).map fun rgb => rgbToHsl rgb.1 rgb.2.1 rgb.2.2

/-- The three rounded output channels of `hslToHex(h, s, l)` (before
rendering to a string).  Mirrors the JS chroma / intermediate / match
decomposition and the six 60°-sector `if` chain; a hue outside every sector
(e.g. `h/360 = 1`) leaves `r = g = b = 0` as initialized. -/
def hslChannels (h s l : ℚ) : ℤ × ℤ × ℤ :=
  let h1 := h / 360
  let s1 := s / 100
  let l1 := l / 100
  let c := (1 - |2 * l1 - 1|) * s1
  let x := c * (1 - |jsMod (h1 * 6) 2 - 1|)
  let m := l1 - c / 2
  let rgb : ℚ × ℚ × ℚ :=
    if 0 ≤ h1 ∧ h1 < 1/6 then (c, x, 0)
    else if 1/6 ≤ h1 ∧ h1 < 2/6 then (x, c, 0)
    else if 2/6 ≤ h1 ∧ h1 < 3/6 then (0, c, x)
    else if 3/6 ≤ h1 ∧ h1 < 4/6 then (0, x, c)
    else if 4/6 ≤ h1 ∧ h1 < 5/6 then (x, 0, c)
    else if 5/6 ≤ h1 ∧ h1 < 1 then (c, 0, x)
    else (0, 0, 0)
  (jsRound ((rgb.1 + m) * 255), jsRound ((rgb.2.1 + m) * 255), jsRound ((rgb.2.2 + m) * 255))

/-- JS `x.toString(16)` for an integer `x`: lowercase hex digits, with a
leading `-` for negative values. -/
def jsToString16 (i : ℤ) : String :=
  if i < 0 then "-" ++ ⟨Nat.toDigits 16 i.natAbs⟩ else ⟨Nat.toDigits 16 i.toNat⟩

/-- JS `s.padStart(2, '0')`. -/
def padStart2 (s : String) : String := if s.length < 2 then "0" ++ s else s

/-- `hslToHex(h, s, l)`: rounds the three channels and renders
`'#' + channels.map(x => x.toString(16).padStart(2, '0')).join('').toUpperCase()`. -/
def hslToHex (h s l : ℚ) : String :=
  let ch := hslChannels h s l
  "#" ++ String.map Char.toUpper
    (padStart2 (jsToString16 ch.1) ++ padStart2 (jsToString16 ch.2.1) ++
      padStart2 (jsToString16 ch.2.2))

/-- `getComplementaryColor(hex)`: convert to HSL, rotate the hue by 180°
modulo 360, convert back.  `none` on malformed input (where the JS code
propagates `NaN`).  The dividend `h + 180` is nonnegative for every hue
`hexToHsl` produces, so `Int.emod` agrees with the JS `%` here. -/
def getComplementaryColor (hex : String) : Option String :=
  (hexToHsl hex).map fun hsl => hslToHex (((hsl.h + 180) % 360 : ℤ) : ℚ) hsl.s hsl.l

/-- `hslToHex(**hexToHsl(hex))`: the round trip named by the spec. -/
def roundTrip (hex : String) : Option String :=
  (hexToHsl hex).map fun hsl => hslToHex hsl.h hsl.s hsl.l

/-- `getComplementaryColor(getComplementaryColor(hex))`. -/
def doubleComplementary (hex : String) : Option String :=
  (getComplementaryColor hex).bind getComplementaryColor

/-- `|a - b| ≤ t` on each of the three channels (the "within ±t per 8-bit
channel" tolerance relation used by the spec's round-trip properties). -/
def channelsWithin (t : ℤ) (p q : ℕ × ℕ × ℕ) : Prop :=
  |(p.1 : ℤ) - q.1| ≤ t ∧ |(p.2.1 : ℤ) - q.2.1| ≤ t ∧ |(p.2.2 : ℤ) - q.2.2| ≤ t

instance (t : ℤ) (p q : ℕ × ℕ × ℕ) : Decidable (channelsWithin t p q) := by
  unfold channelsWithin; infer_instance

/-- Executable form of `channelsWithin` on two hex strings: parse both and
compare channels; `false` when either fails to parse. -/
def hexWithin (t : ℤ) (hex1 hex2 : String) : Bool :=
  match parseRgb (removeFirstHash hex1.data), parseRgb (removeFirstHash hex2.data) with
  | some p, some q => decide (channelsWithin t p q)
  | _, _ => false

/-- The hex string `hslToHex` would render for given integer channels; used
to name concrete inputs such as the grayscale hexes `#VVVVVV`. -/
def renderRgb (r g b : ℤ) : String :=
  "#" ++ String.map Char.toUpper
    (padStart2 (jsToString16 r) ++ padStart2 (jsToString16 g) ++ padStart2 (jsToString16 b))

/-- `getComplementaryColor(getComplementaryColor(hex))` succeeds and lands
within ±1 of `hex` on every 8-bit channel. -/
def doubleCompWithinOne (hex : String) : Bool :=
  match doubleComplementary hex with
  | some res => hexWithin 1 hex res
  | none => false

/-- A record of the user's color collection: at least a `hex` string and a
`name` label (extra caller-supplied attributes are not modelled; every
operation passes them through unchanged). -/
structure Color where
  hex : String
  name : String
deriving DecidableEq, Repr

/-- A collection record as it appears in a harmony-search result: the record
together with the transient ranking field.  The JS code spreads the record
and adds a numeric `hueDiff`; the force-included base record is pushed
unchanged and therefore carries no `hueDiff` (`none`). -/
structure AnnotatedColor where
  color : Color
  hueDiff : Option ℤ
deriving DecidableEq, Repr

/-- A record annotated by the monochromatic search, which ranks by
`lightnessDiff` instead (every entry it pushes carries the field). -/
structure MonoAnnotated where
  color : Color
  lightnessDiff : ℤ
deriving DecidableEq, Repr

/-- The circular hue distance `Math.min(Math.abs(a - b), 360 - Math.abs(a - b))`
that every harmony search computes inline. -/
def circHueDiff (a b : ℤ) : ℤ := min |a - b| (360 - |a - b|)

/-- The comparator `(a, b) => a.hueDiff - b.hueDiff` as used by
`Array.prototype.sort`, as a boolean "a may precede b" relation.  When
either record lacks `hueDiff` (the force-included base), the JS subtraction
yields `NaN`, which ECMAScript's `SortCompare` treats as `+0`: a tie, so
either order is allowed (`true`). -/
def hueDiffLe (a b : AnnotatedColor) : Bool :=
  match a.hueDiff, b.hueDiff with
  | some x, some y => x ≤ y
  | _, _ => true

/-- The comparator `(a, b) => a.lightnessDiff - b.lightnessDiff` of the
monochromatic search. -/
def lightnessDiffLe (a b : MonoAnnotated) : Bool :=
  a.lightnessDiff ≤ b.lightnessDiff

/-- Insert into a sorted list, keeping the inserted element before the first
element it is not strictly after (ties favor the inserted element's original,
earlier position — stability). -/
def sortInsert (le : α → α → Bool) (a : α) : List α → List α
  | [] => [a]
  | b :: l => if le a b then a :: b :: l else b :: sortInsert le a l

/-- Model of `Array.prototype.sort(comparator)`: a stable comparison sort.
(ECMAScript requires the sort to be stable; for the inconsistent comparator
produced by a missing `hueDiff` the result is implementation-defined, and
this model matches the engines' behavior of treating every comparison
against the unscored element as a tie.) -/
def stableSort (le : α → α → Bool) : List α → List α
  | [] => []
  | a :: l => sortInsert le a (stableSort le l)

/-- The scan of `findAnalogousColorsFromCollection`: every collection record
within 60° of the base hue, annotated with the hue difference, in collection
order. -/
def analogousMatches (colors : List Color) (baseHex : String) : List AnnotatedColor :=
  let baseHsl? := hexToHsl baseHex
  colors.filterMap fun color =>
    match hexToHsl color.hex, baseHsl? with
    | some colorHsl, some baseHsl =>
      let hueDiff := circHueDiff colorHsl.h baseHsl.h
      if hueDiff ≤ 60 then some ⟨color, some hueDiff⟩ else none
    | _, _ => none

/-- `findAnalogousColorsFromCollection(colors, baseHex, count)`: sort the
within-60° matches by hue difference and truncate. -/
def findAnalogousColorsFromCollection (colors : List Color) (baseHex : String)
    (count : ℕ) : List AnnotatedColor :=
  (stableSort hueDiffLe (analogousMatches colors baseHex)).take count

/-- `const baseColor = colors.find(c => c.hex === baseHex)`, pushed first
(unannotated) when found. -/
def complementaryBase (colors : List Color) (baseHex : String) : List AnnotatedColor :=
  match colors.find? fun c => c.hex == baseHex with
  | some baseColor => [⟨baseColor, none⟩]
  | none => []

/-- The primary scan of `findComplementaryColorsFromCollection`: records
(other than the base hex) within 45° of the complementary hue. -/
def complementaryPrimary (colors : List Color) (baseHex : String) : List AnnotatedColor :=
  let complementaryHue? := (hexToHsl baseHex).map fun baseHsl => (baseHsl.h + 180) % 360
  colors.filterMap fun color =>
    if color.hex == baseHex then none
    else match hexToHsl color.hex, complementaryHue? with
    | some colorHsl, some complementaryHue =>
      let hueDiff := circHueDiff colorHsl.h complementaryHue
      if hueDiff ≤ 45 then some ⟨color, some hueDiff⟩ else none
    | _, _ => none

/-- One step of the fallback scan of `findComplementaryColorsFromCollection`:
skip the base hex and any hex already selected; otherwise push records within
30° of the base hue with their key penalized by `+1000`. -/
def complementaryFallbackStep (baseHsl? : Option Hsl) (baseHex : String)
    (acc : List AnnotatedColor) (color : Color) : List AnnotatedColor :=
  if color.hex == baseHex then acc
  else if acc.any fun c => c.color.hex == color.hex then acc
  else match hexToHsl color.hex, baseHsl? with
  | some colorHsl, some baseHsl =>
    let hueDiff := circHueDiff colorHsl.h baseHsl.h
    if hueDiff ≤ 30 then acc ++ [⟨color, some (hueDiff + 1000)⟩] else acc
  | _, _ => acc

/-- The full pre-sort candidate list of `findComplementaryColorsFromCollection`:
force-included base, primary matches, then the fallback scan. -/
def complementaryCandidates (colors : List Color) (baseHex : String) : List AnnotatedColor :=
  colors.foldl (complementaryFallbackStep (hexToHsl baseHex) baseHex)
    (complementaryBase colors baseHex ++ complementaryPrimary colors baseHex)

/-- `findComplementaryColorsFromCollection(colors, baseHex, count)`. -/
def findComplementaryColorsFromCollection (colors : List Color) (baseHex : String)
    (count : ℕ) : List AnnotatedColor :=
  (stableSort hueDiffLe (complementaryCandidates colors baseHex)).take count

/-- The scan of `findTriadicColorsFromCollection`: records (other than the
base hex) within 45° of the nearest of base+120°, base+240°, or the base hue
itself, keyed by that minimum difference. -/
def triadicMatches (colors : List Color) (baseHex : String) : List AnnotatedColor :=
  let baseHsl? := hexToHsl baseHex
  colors.filterMap fun color =>
    if color.hex == baseHex then none
    else match hexToHsl color.hex, baseHsl? with
    | some colorHsl, some baseHsl =>
      let diff1 := circHueDiff colorHsl.h ((baseHsl.h + 120) % 360)
      let diff2 := circHueDiff colorHsl.h ((baseHsl.h + 240) % 360)
      let diff3 := circHueDiff colorHsl.h baseHsl.h
      let minDiff := min diff1 (min diff2 diff3)
      if minDiff ≤ 45 then some ⟨color, some minDiff⟩ else none
    | _, _ => none

/-- The full pre-sort candidate list of `findTriadicColorsFromCollection`. -/
def triadicCandidates (colors : List Color) (baseHex : String) : List AnnotatedColor :=
  complementaryBase colors baseHex ++ triadicMatches colors baseHex

/-- `findTriadicColorsFromCollection(colors, baseHex, count)`. -/
def findTriadicColorsFromCollection (colors : List Color) (baseHex : String)
    (count : ℕ) : List AnnotatedColor :=
  (stableSort hueDiffLe (triadicCandidates colors baseHex)).take count

/-- The scan of `findMonochromaticColorsFromCollection`: every record within
15° of the base hue, keyed by the absolute lightness difference. -/
def monochromaticMatches (colors : List Color) (baseHex : String) : List MonoAnnotated :=
  let baseHsl? := hexToHsl baseHex
  colors.filterMap fun color =>
    match hexToHsl color.hex, baseHsl? with
    | some colorHsl, some baseHsl =>
      let hueDiff := circHueDiff colorHsl.h baseHsl.h
      if hueDiff ≤ 15 then some ⟨color, |colorHsl.l - baseHsl.l|⟩ else none
    | _, _ => none

/-- `findMonochromaticColorsFromCollection(colors, baseHex, count)`. -/
def findMonochromaticColorsFromCollection (colors : List Color) (baseHex : String)
    (count : ℕ) : List MonoAnnotated :=
  (stableSort lightnessDiffLe (monochromaticMatches colors baseHex)).take count

/-- The scan of `findSplitComplementaryFromCollection`: records (other than
the base hex) within 30° of the nearest of base+150°, base+210°, or the base
hue itself. -/
def splitMatches (colors : List Color) (baseHex : String) : List AnnotatedColor :=
  let baseHsl? := hexToHsl baseHex
  colors.filterMap fun color =>
    if color.hex == baseHex then none
    else match hexToHsl color.hex, baseHsl? with
    | some colorHsl, some baseHsl =>
      let diff1 := circHueDiff colorHsl.h ((baseHsl.h + 150) % 360)
      let diff2 := circHueDiff colorHsl.h ((baseHsl.h + 210) % 360)
      let diffBase := circHueDiff colorHsl.h baseHsl.h
      let minDiff := min diff1 (min diff2 diffBase)
      if minDiff ≤ 30 then some ⟨color, some minDiff⟩ else none
    | _, _ => none

/-- The full pre-sort candidate list of `findSplitComplementaryFromCollection`. -/
def splitCandidates (colors : List Color) (baseHex : String) : List AnnotatedColor :=
  complementaryBase colors baseHex ++ splitMatches colors baseHex

/-- `findSplitComplementaryFromCollection(colors, baseHex, count)`. -/
def findSplitComplementaryFromCollection (colors : List Color) (baseHex : String)
    (count : ℕ) : List AnnotatedColor :=
  (stableSort hueDiffLe (splitCandidates colors baseHex)).take count

/-- A palette suggestion of `generateSmartPaletteSuggestions`. -/
structure Suggestion where
  name : String
  type : String
  baseColor : Color
  colors : List AnnotatedColor
deriving DecidableEq, Repr

/-- `generateSmartPaletteSuggestions(colors)`: empty below 3 records;
otherwise the first `min(5, length)` records are bases, each emitting an
analogous suggestion when its index is `< 3` and complementary and triadic
suggestions when its index is `< 2`; finally, suggestions with fewer than 3
result colors are dropped. -/
def generateSmartPaletteSuggestions (colors : List Color) : List Suggestion :=
  if colors.length < 3 then []
  else
    let baseColors := colors.take (min 5 colors.length)
    let suggestions := baseColors.enum.flatMap fun p =>
      (if p.1 < 3 then
        [⟨"Análoga desde " ++ p.2.name, "analogous", p.2,
          findAnalogousColorsFromCollection colors p.2.hex 5⟩] else [])
      ++ (if p.1 < 2 then
        [⟨"Complementaria desde " ++ p.2.name, "complementary", p.2,
          findComplementaryColorsFromCollection colors p.2.hex 4⟩] else [])
      ++ (if p.1 < 2 then
        [⟨"Triádica desde " ++ p.2.name, "triadic", p.2,
          findTriadicColorsFromCollection colors p.2.hex 6⟩] else [])
    suggestions.filter fun s => decide (3 ≤ s.colors.length)

/-! ## Arithmetic facts about the embedding primitives -/

set_option maxRecDepth 40000
set_option maxHeartbeats 4000000

theorem le_jsRound (a : ℤ) (q : ℚ) (h : (a : ℚ) ≤ q) : a ≤ jsRound q := by
  unfold jsRound
  rw [Int.le_floor]
  linarith

theorem jsRound_le (q : ℚ) (b : ℤ) (h : q ≤ (b : ℚ)) : jsRound q ≤ b := by
  unfold jsRound
  have h2 : q + 1/2 < ((b + 1 : ℤ) : ℚ) := by push_cast; linarith
  have h3 := Int.floor_lt.mpr h2
  omega

theorem hexDigitVal_le (c : Char) (d : ℕ) (h : hexDigitVal c = some d) : d ≤ 15 := by
  unfold hexDigitVal at h
  split_ifs at h with h1 h2 h3 <;>
    simp only [Option.some.injEq, reduceCtorEq] at h <;> omega

theorem parseRgb_le (cs : List Char) (R G B : ℕ) (h : parseRgb cs = some (R, G, B)) :
    R ≤ 255 ∧ G ≤ 255 ∧ B ≤ 255 := by
  unfold parseRgb at h
  split at h
  · split at h
    · rename_i d1 d2 d3 d4 d5 d6 h1 h2 h3 h4 h5 h6
      simp only [Option.some.injEq, Prod.mk.injEq] at h
      obtain ⟨hR, hG, hB⟩ := h
      have b1 := hexDigitVal_le _ _ h1
      have b2 := hexDigitVal_le _ _ h2
      have b3 := hexDigitVal_le _ _ h3
      have b4 := hexDigitVal_le _ _ h4
      have b5 := hexDigitVal_le _ _ h5
      have b6 := hexDigitVal_le _ _ h6
      omega
    · exact absurd h (by simp)
  · exact absurd h (by simp)

theorem rgbToHsl_bounds (R G B : ℕ) (hR : R ≤ 255) (hG : G ≤ 255) (hB : B ≤ 255) :
    0 ≤ (rgbToHsl R G B).h ∧ (rgbToHsl R G B).h ≤ 360 ∧
    0 ≤ (rgbToHsl R G B).s ∧ (rgbToHsl R G B).s ≤ 100 ∧
    0 ≤ (rgbToHsl R G B).l ∧ (rgbToHsl R G B).l ≤ 100 := by
  unfold rgbToHsl
  dsimp only
  set r : ℚ := (R : ℚ) / 255 with hr_def
  set g : ℚ := (G : ℚ) / 255 with hg_def
  set b : ℚ := (B : ℚ) / 255 with hb_def
  have hr0 : 0 ≤ r := by rw [hr_def]; positivity
  have hg0 : 0 ≤ g := by rw [hg_def]; positivity
  have hb0 : 0 ≤ b := by rw [hb_def]; positivity
  have hr1 : r ≤ 1 := by
    rw [hr_def, div_le_one (by norm_num)]
    exact_mod_cast hR
  have hg1 : g ≤ 1 := by
    rw [hg_def, div_le_one (by norm_num)]
    exact_mod_cast hG
  have hb1 : b ≤ 1 := by
    rw [hb_def, div_le_one (by norm_num)]
    exact_mod_cast hB
  set mx : ℚ := max r (max g b) with hmx_def
  set mn : ℚ := min r (min g b) with hmn_def
  have hmx1 : mx ≤ 1 := max_le hr1 (max_le hg1 hb1)
  have hmn0 : 0 ≤ mn := le_min hr0 (le_min hg0 hb0)
  have hrmx : r ≤ mx := le_max_left _ _
  have hgmx : g ≤ mx := le_trans (le_max_left g b) (le_max_right r _)
  have hbmx : b ≤ mx := le_trans (le_max_right g b) (le_max_right r _)
  have hmnr : mn ≤ r := min_le_left _ _
  have hmng : mn ≤ g := le_trans (min_le_right r _) (min_le_left g b)
  have hmnb : mn ≤ b := le_trans (min_le_right r _) (min_le_right g b)
  have hmnmx : mn ≤ mx := le_trans hmnr hrmx
  have hl100 : (mx + mn) / 2 * 100 ≤ ((100 : ℤ) : ℚ) := by push_cast; linarith
  by_cases hdiff : mx - mn = 0
  · rw [if_pos hdiff]
    refine ⟨by norm_num, by norm_num, by norm_num, by norm_num, ?_, ?_⟩
    · exact le_jsRound 0 _ (by push_cast; positivity)
    · exact jsRound_le _ 100 hl100
  · rw [if_neg hdiff]
    have hlt : mn < mx := lt_of_le_of_ne hmnmx fun he => hdiff (by rw [← he]; ring)
    have hd : (0 : ℚ) < mx - mn := by linarith
    refine ⟨?_, ?_, ?_, ?_, ?_, ?_⟩
    · -- 0 ≤ h
      apply le_jsRound
      push_cast
      split_ifs with h1 h2 h3
      · have hq : -(1 : ℚ) ≤ (g - b) / (mx - mn) := by
          rw [le_div_iff₀ hd]; linarith
        linarith
      · have hq : (0 : ℚ) ≤ (g - b) / (mx - mn) := by
          apply div_nonneg _ (le_of_lt hd)
          push_neg at h2
          linarith
        linarith
      · have hq : -(1 : ℚ) ≤ (b - r) / (mx - mn) := by
          rw [le_div_iff₀ hd]; linarith
        linarith
      · have hq : -(1 : ℚ) ≤ (r - g) / (mx - mn) := by
          rw [le_div_iff₀ hd]; linarith
        linarith
    · -- h ≤ 360
      apply jsRound_le
      push_cast
      split_ifs with h1 h2 h3
      · have hq : (g - b) / (mx - mn) ≤ 0 := by
          apply div_nonpos_of_nonpos_of_nonneg _ (le_of_lt hd)
          linarith
        linarith
      · have hq : (g - b) / (mx - mn) ≤ 1 := by
          rw [div_le_one hd]; linarith
        linarith
      · have hq : (b - r) / (mx - mn) ≤ 1 := by
          rw [div_le_one hd]; linarith
        linarith
      · have hq : (r - g) / (mx - mn) ≤ 1 := by
          rw [div_le_one hd]; linarith
        linarith
    · -- 0 ≤ s
      apply le_jsRound
      push_cast
      split_ifs with h1
      · have hpos : (0 : ℚ) < 2 - mx - mn := by linarith
        have hq : (0 : ℚ) ≤ (mx - mn) / (2 - mx - mn) :=
          div_nonneg (by linarith) (le_of_lt hpos)
        linarith
      · have hpos : (0 : ℚ) < mx + mn := by linarith
        have hq : (0 : ℚ) ≤ (mx - mn) / (mx + mn) :=
          div_nonneg (by linarith) (le_of_lt hpos)
        linarith
    · -- s ≤ 100
      apply jsRound_le
      push_cast
      split_ifs with h1
      · have hpos : (0 : ℚ) < 2 - mx - mn := by linarith
        have hq : (mx - mn) / (2 - mx - mn) ≤ 1 := by
          rw [div_le_one hpos]; linarith
        linarith
      · have hpos : (0 : ℚ) < mx + mn := by linarith
        have hq : (mx - mn) / (mx + mn) ≤ 1 := by
          rw [div_le_one hpos]; linarith
        linarith
    · -- 0 ≤ l
      exact le_jsRound 0 _ (by push_cast; positivity)
    · -- l ≤ 100
      exact jsRound_le _ 100 hl100

theorem hexToHsl_bounds (hex : String) (hsl : Hsl) (h : hexToHsl hex = some hsl) :
    0 ≤ hsl.h ∧ hsl.h ≤ 360 ∧ 0 ≤ hsl.s ∧ hsl.s ≤ 100 ∧ 0 ≤ hsl.l ∧ hsl.l ≤ 100 := by
  unfold hexToHsl at h
  rw [Option.map_eq_some'] at h
  obtain ⟨rgb, hp, h⟩ := h
  obtain ⟨hR, hG, hB⟩ := parseRgb_le _ rgb.1 rgb.2.1 rgb.2.2 (by rw [hp])
  rw [← h]
  exact rgbToHsl_bounds rgb.1 rgb.2.1 rgb.2.2 hR hG hB

/-! ## The stable sort model -/

theorem sortInsert_perm (le : α → α → Bool) (a : α) (l : List α) :
    List.Perm (sortInsert le a l) (a :: l) := by
  induction l with
  | nil => exact List.Perm.refl _
  | cons b t ih =>
    unfold sortInsert
    by_cases h : le a b
    · rw [if_pos h]
    · rw [if_neg h]
      exact (ih.cons b).trans (List.Perm.swap a b t)

theorem stableSort_perm (le : α → α → Bool) (l : List α) : List.Perm (stableSort le l) l := by
  induction l with
  | nil => exact List.Perm.refl _
  | cons a t ih => exact (sortInsert_perm le a (stableSort le t)).trans (ih.cons a)

theorem mem_stableSort (le : α → α → Bool) (l : List α) (x : α) :
    x ∈ stableSort le l ↔ x ∈ l :=
  (stableSort_perm le l).mem_iff

theorem length_stableSort (le : α → α → Bool) (l : List α) :
    (stableSort le l).length = l.length :=
  (stableSort_perm le l).length_eq

theorem stableSort_cons_of_le (le : α → α → Bool) (a : α) (l : List α)
    (h : ∀ x ∈ l, le a x = true) :
    stableSort le (a :: l) = a :: stableSort le l := by
  show sortInsert le a (stableSort le l) = _
  cases hs : stableSort le l with
  | nil => rfl
  | cons b t =>
    have hb : b ∈ l := by
      rw [← mem_stableSort le l b, hs]
      exact List.mem_cons_self b t
    unfold sortInsert
    rw [if_pos (h b hb)]

theorem pairwise_sortInsert (le : α → α → Bool) (P : α → Prop)
    (total : ∀ x y, le x y = true ∨ le y x = true)
    (ptrans : ∀ x y z, P x → P y → P z → le x y = true → le y z = true → le x z = true)
    (a : α) (l : List α) (hPa : P a) (hPl : ∀ x ∈ l, P x)
    (hl : l.Pairwise fun x y => le x y = true) :
    (sortInsert le a l).Pairwise fun x y => le x y = true := by
  induction l with
  | nil => simp [sortInsert]
  | cons b t ih =>
    rw [List.pairwise_cons] at hl
    obtain ⟨hb, ht⟩ := hl
    unfold sortInsert
    by_cases hab : le a b = true
    · rw [if_pos hab]
      refine List.Pairwise.cons ?_ (List.Pairwise.cons hb ht)
      intro x hx
      rcases List.mem_cons.mp hx with rfl | hx
      · exact hab
      · exact ptrans a b x hPa (hPl b (List.mem_cons_self b t))
          (hPl x (List.mem_cons_of_mem _ hx)) hab (hb x hx)
    · rw [if_neg hab]
      refine List.Pairwise.cons ?_
        (ih (fun x hx => hPl x (List.mem_cons_of_mem _ hx)) ht)
      intro x hx
      have hx2 : x ∈ a :: t := (sortInsert_perm le a t).mem_iff.mp hx
      rcases List.mem_cons.mp hx2 with rfl | hx2
      · rcases total x b with h | h
        · exact absurd h hab
        · exact h
      · exact hb x hx2

theorem pairwise_stableSort (le : α → α → Bool) (P : α → Prop)
    (total : ∀ x y, le x y = true ∨ le y x = true)
    (ptrans : ∀ x y z, P x → P y → P z → le x y = true → le y z = true → le x z = true)
    (l : List α) (hPl : ∀ x ∈ l, P x) :
    (stableSort le l).Pairwise fun x y => le x y = true := by
  induction l with
  | nil => simp [stableSort]
  | cons a t ih =>
    show (sortInsert le a (stableSort le t)).Pairwise _
    exact pairwise_sortInsert le P total ptrans a (stableSort le t)
      (hPl a (List.mem_cons_self a t))
      (fun x hx => hPl x (List.mem_cons_of_mem _ ((mem_stableSort le t x).mp hx)))
      (ih fun x hx => hPl x (List.mem_cons_of_mem _ hx))

/-! ## Comparator facts -/

theorem hueDiffLe_total (a b : AnnotatedColor) :
    hueDiffLe a b = true ∨ hueDiffLe b a = true := by
  unfold hueDiffLe
  rcases a.hueDiff with _ | x <;> rcases b.hueDiff with _ | y <;> simp
  exact Int.le_total x y

/-- An entry with no `hueDiff` (the force-included base) compares as a tie
on the left against everything: the JS comparator returns `NaN`, treated as
`+0`. -/
theorem hueDiffLe_none_left (c : Color) (x : AnnotatedColor) :
    hueDiffLe ⟨c, none⟩ x = true := rfl

/-- ... and likewise as a tie on the right. -/
theorem hueDiffLe_none_right (c : Color) (x : AnnotatedColor) :
    hueDiffLe x ⟨c, none⟩ = true := by
  unfold hueDiffLe
  rcases x.hueDiff with _ | d <;> rfl

theorem hueDiffLe_trans_some (x y z : AnnotatedColor)
    (hx : x.hueDiff.isSome) (hy : y.hueDiff.isSome) (hz : z.hueDiff.isSome)
    (hxy : hueDiffLe x y = true) (hyz : hueDiffLe y z = true) :
    hueDiffLe x z = true := by
  obtain ⟨dx, hdx⟩ := Option.isSome_iff_exists.mp hx
  obtain ⟨dy, hdy⟩ := Option.isSome_iff_exists.mp hy
  obtain ⟨dz, hdz⟩ := Option.isSome_iff_exists.mp hz
  unfold hueDiffLe at *
  rw [hdx, hdy] at hxy
  rw [hdy, hdz] at hyz
  rw [hdx, hdz]
  simp only [decide_eq_true_eq] at hxy hyz ⊢
  omega

theorem lightnessDiffLe_total (a b : MonoAnnotated) :
    lightnessDiffLe a b = true ∨ lightnessDiffLe b a = true := by
  unfold lightnessDiffLe
  simp only [decide_eq_true_eq]
  exact Int.le_total _ _

theorem lightnessDiffLe_trans (x y z : MonoAnnotated)
    (hxy : lightnessDiffLe x y = true) (hyz : lightnessDiffLe y z = true) :
    lightnessDiffLe x z = true := by
  unfold lightnessDiffLe at *
  simp only [decide_eq_true_eq] at *
  omega

/-! ## Shape of the candidate lists -/

theorem analogousMatches_isSome (colors : List Color) (baseHex : String) :
    ∀ x ∈ analogousMatches colors baseHex, x.hueDiff.isSome := by
  intro x hx
  unfold analogousMatches at hx
  simp only [List.mem_filterMap] at hx
  obtain ⟨c, _, hfc⟩ := hx
  rcases h1 : hexToHsl c.hex with _ | ch <;> rw [h1] at hfc
  · exact absurd hfc (by simp)
  · rcases h2 : hexToHsl baseHex with _ | bh <;> rw [h2] at hfc
    · exact absurd hfc (by simp)
    · dsimp only at hfc
      split_ifs at hfc
      simp only [Option.some.injEq] at hfc
      rw [← hfc]
      rfl

theorem complementaryPrimary_isSome (colors : List Color) (baseHex : String) :
    ∀ x ∈ complementaryPrimary colors baseHex, x.hueDiff.isSome := by
  intro x hx
  unfold complementaryPrimary at hx
  simp only [List.mem_filterMap] at hx
  obtain ⟨c, _, hfc⟩ := hx
  split_ifs at hfc
  rcases h1 : hexToHsl c.hex with _ | ch <;> rw [h1] at hfc
  · exact absurd hfc (by simp)
  · rcases h2 : (hexToHsl baseHex).map (fun baseHsl => (baseHsl.h + 180) % 360)
        with _ | hue <;> rw [h2] at hfc
    · exact absurd hfc (by simp)
    · dsimp only at hfc
      split_ifs at hfc
      simp only [Option.some.injEq] at hfc
      rw [← hfc]
      rfl

theorem triadicMatches_isSome (colors : List Color) (baseHex : String) :
    ∀ x ∈ triadicMatches colors baseHex, x.hueDiff.isSome := by
  intro x hx
  unfold triadicMatches at hx
  simp only [List.mem_filterMap] at hx
  obtain ⟨c, _, hfc⟩ := hx
  split_ifs at hfc
  rcases h1 : hexToHsl c.hex with _ | ch <;> rw [h1] at hfc
  · exact absurd hfc (by simp)
  · rcases h2 : hexToHsl baseHex with _ | bh <;> rw [h2] at hfc
    · exact absurd hfc (by simp)
    · dsimp only at hfc
      split_ifs at hfc
      simp only [Option.some.injEq] at hfc
      rw [← hfc]
      rfl

theorem splitMatches_isSome (colors : List Color) (baseHex : String) :
    ∀ x ∈ splitMatches colors baseHex, x.hueDiff.isSome := by
  intro x hx
  unfold splitMatches at hx
  simp only [List.mem_filterMap] at hx
  obtain ⟨c, _, hfc⟩ := hx
  split_ifs at hfc
  rcases h1 : hexToHsl c.hex with _ | ch <;> rw [h1] at hfc
  · exact absurd hfc (by simp)
  · rcases h2 : hexToHsl baseHex with _ | bh <;> rw [h2] at hfc
    · exact absurd hfc (by simp)
    · dsimp only at hfc
      split_ifs at hfc
      simp only [Option.some.injEq] at hfc
      rw [← hfc]
      rfl

/-- The fallback scan only ever appends, and every appended entry carries a
numeric (penalized) `hueDiff`. -/
theorem foldl_fallbackStep_shape (baseHsl? : Option Hsl) (baseHex : String) :
    ∀ (l : List Color) (acc : List AnnotatedColor),
      ∃ extra, l.foldl (complementaryFallbackStep baseHsl? baseHex) acc = acc ++ extra ∧
        ∀ x ∈ extra, x.hueDiff.isSome := by
  intro l
  induction l with
  | nil => exact fun acc => ⟨[], by simp⟩
  | cons c t ih =>
    intro acc
    rw [List.foldl_cons]
    have hstep : complementaryFallbackStep baseHsl? baseHex acc c = acc ∨
        ∃ d : ℤ, complementaryFallbackStep baseHsl? baseHex acc c =
          acc ++ [⟨c, some d⟩] := by
      unfold complementaryFallbackStep
      split_ifs
      · exact Or.inl rfl
      · exact Or.inl rfl
      · rcases hexToHsl c.hex with _ | ch
        · exact Or.inl rfl
        · rcases baseHsl? with _ | bh
          · exact Or.inl rfl
          · dsimp only
            split_ifs
            · exact Or.inr ⟨_, rfl⟩
            · exact Or.inl rfl
    rcases hstep with hstep | ⟨d, hstep⟩
    · rw [hstep]; exact ih acc
    · rw [hstep]
      obtain ⟨extra, heq, hsome⟩ := ih (acc ++ [⟨c, some d⟩])
      refine ⟨⟨c, some d⟩ :: extra, ?_, ?_⟩
      · rw [heq, List.append_assoc]; rfl
      · intro x hx
        rcases List.mem_cons.mp hx with rfl | hx
        · rfl
        · exact hsome x hx

/-- When the base hex occurs in the collection, the candidate list of the
complementary search is the first matching record (unannotated) followed by
annotated entries only; when it does not, every candidate is annotated. -/
theorem complementaryCandidates_shape (colors : List Color) (baseHex : String) :
    (∀ b, colors.find? (fun c => c.hex == baseHex) = some b →
      ∃ rest, complementaryCandidates colors baseHex = ⟨b, none⟩ :: rest ∧
        ∀ x ∈ rest, x.hueDiff.isSome) ∧
    (colors.find? (fun c => c.hex == baseHex) = none →
      ∀ x ∈ complementaryCandidates colors baseHex, x.hueDiff.isSome) := by
  constructor
  · intro b hb
    unfold complementaryCandidates complementaryBase
    rw [hb]
    obtain ⟨extra, heq, hsome⟩ := foldl_fallbackStep_shape (hexToHsl baseHex) baseHex colors
      ([⟨b, none⟩] ++ complementaryPrimary colors baseHex)
    refine ⟨complementaryPrimary colors baseHex ++ extra, ?_, ?_⟩
    · rw [heq]; simp
    · intro x hx
      rcases List.mem_append.mp hx with hx | hx
      · exact complementaryPrimary_isSome colors baseHex x hx
      · exact hsome x hx
  · intro hb x hx
    unfold complementaryCandidates complementaryBase at hx
    rw [hb] at hx
    obtain ⟨extra, heq, hsome⟩ := foldl_fallbackStep_shape (hexToHsl baseHex) baseHex colors
      ([] ++ complementaryPrimary colors baseHex)
    rw [heq] at hx
    rcases List.mem_append.mp hx with hx | hx
    · exact complementaryPrimary_isSome colors baseHex x (by simpa using hx)
    · exact hsome x hx

/-! ## Sortedness of the search results -/

/-- Sorting a candidate list that is either all-annotated or an unannotated
head followed by annotated entries yields a list that is pairwise ordered
under the JS comparator. -/
theorem pairwise_stableSort_hueDiff (l : List AnnotatedColor)
    (hshape : (∀ x ∈ l, x.hueDiff.isSome) ∨
      ∃ b t, l = ⟨b, none⟩ :: t ∧ ∀ x ∈ t, x.hueDiff.isSome) :
    (stableSort hueDiffLe l).Pairwise fun x y => hueDiffLe x y = true := by
  rcases hshape with hall | ⟨b, t, rfl, ht⟩
  · exact pairwise_stableSort hueDiffLe (fun x => x.hueDiff.isSome = true)
      hueDiffLe_total hueDiffLe_trans_some l hall
  · rw [stableSort_cons_of_le hueDiffLe _ _ (fun x _ => hueDiffLe_none_left b x)]
    refine List.Pairwise.cons (fun x _ => hueDiffLe_none_left b x) ?_
    exact pairwise_stableSort hueDiffLe (fun x => x.hueDiff.isSome = true)
      hueDiffLe_total hueDiffLe_trans_some t ht

theorem pairwise_take {R : α → α → Prop} (l : List α) (n : ℕ)
    (h : l.Pairwise R) : (l.take n).Pairwise R :=
  h.sublist (List.take_sublist n l)

theorem analogous_result_pairwise (colors : List Color) (baseHex : String) (count : ℕ) :
    (findAnalogousColorsFromCollection colors baseHex count).Pairwise
      fun x y => hueDiffLe x y = true := by
  unfold findAnalogousColorsFromCollection
  exact pairwise_take _ _
    (pairwise_stableSort_hueDiff _ (Or.inl (analogousMatches_isSome colors baseHex)))

theorem complementary_result_pairwise (colors : List Color) (baseHex : String) (count : ℕ) :
    (findComplementaryColorsFromCollection colors baseHex count).Pairwise
      fun x y => hueDiffLe x y = true := by
  unfold findComplementaryColorsFromCollection
  apply pairwise_take _ _
  apply pairwise_stableSort_hueDiff
  rcases hb : colors.find? (fun c => c.hex == baseHex) with _ | b
  · exact Or.inl ((complementaryCandidates_shape colors baseHex).2 hb)
  · obtain ⟨rest, heq, hsome⟩ := (complementaryCandidates_shape colors baseHex).1 b hb
    exact Or.inr ⟨b, rest, heq, hsome⟩

theorem triadic_result_pairwise (colors : List Color) (baseHex : String) (count : ℕ) :
    (findTriadicColorsFromCollection colors baseHex count).Pairwise
      fun x y => hueDiffLe x y = true := by
  unfold findTriadicColorsFromCollection
  apply pairwise_take _ _
  apply pairwise_stableSort_hueDiff
  unfold triadicCandidates complementaryBase
  rcases hb : colors.find? (fun c => c.hex == baseHex) with _ | b
  · refine Or.inl fun x hx => ?_
    rw [hb] at hx
    exact triadicMatches_isSome colors baseHex x (by simpa using hx)
  · refine Or.inr ⟨b, triadicMatches colors baseHex, ?_, triadicMatches_isSome colors baseHex⟩
    rw [hb]
    rfl

theorem split_result_pairwise (colors : List Color) (baseHex : String) (count : ℕ) :
    (findSplitComplementaryFromCollection colors baseHex count).Pairwise
      fun x y => hueDiffLe x y = true := by
  unfold findSplitComplementaryFromCollection
  apply pairwise_take _ _
  apply pairwise_stableSort_hueDiff
  unfold splitCandidates complementaryBase
  rcases hb : colors.find? (fun c => c.hex == baseHex) with _ | b
  · refine Or.inl fun x hx => ?_
    rw [hb] at hx
    exact splitMatches_isSome colors baseHex x (by simpa using hx)
  · refine Or.inr ⟨b, splitMatches colors baseHex, ?_, splitMatches_isSome colors baseHex⟩
    rw [hb]
    rfl

theorem mono_result_pairwise (colors : List Color) (baseHex : String) (count : ℕ) :
    (findMonochromaticColorsFromCollection colors baseHex count).Pairwise
      fun x y => lightnessDiffLe x y = true := by
  unfold findMonochromaticColorsFromCollection
  apply pairwise_take _ _
  exact pairwise_stableSort lightnessDiffLe (fun _ => True) lightnessDiffLe_total
    (fun x y z _ _ _ => lightnessDiffLe_trans x y z) _ (fun _ _ => trivial)

theorem stableSort_pair (le : α → α → Bool) (a b : α) (h : le a b = false) :
    stableSort le [a, b] = [b, a] := by
  show sortInsert le a (sortInsert le b []) = _
  simp only [sortInsert]
  rw [h]
  simp

theorem sortTake_length_le (le : α → α → Bool) (l : List α) (count : ℕ) :
    ((stableSort le l).take count).length ≤ count := by
  rw [List.length_take]
  exact Nat.min_le_left _ _

theorem sortTake_perm_of_lt (le : α → α → Bool) (l : List α) (count : ℕ)
    (h : l.length < count) : List.Perm ((stableSort le l).take count) l := by
  rw [List.take_of_length_le (by rw [length_stableSort]; omega)]
  exact stableSort_perm le l

/-- When the base hex occurs in the collection and the requested count is
positive, the complementary result is the unannotated first matching record
followed by a prefix of the sorted annotated candidates. -/
theorem complementary_result_cons (colors : List Color) (baseHex : String)
    (count : ℕ) (b : Color)
    (hb : colors.find? (fun c => c.hex == baseHex) = some b) (hc : 1 ≤ count) :
    ∃ rest, complementaryCandidates colors baseHex = ⟨b, none⟩ :: rest ∧
      (∀ x ∈ rest, x.hueDiff.isSome) ∧
      findComplementaryColorsFromCollection colors baseHex count =
        ⟨b, none⟩ :: (stableSort hueDiffLe rest).take (count - 1) := by
  obtain ⟨rest, heq, hsome⟩ := (complementaryCandidates_shape colors baseHex).1 b hb
  refine ⟨rest, heq, hsome, ?_⟩
  unfold findComplementaryColorsFromCollection
  rw [heq, stableSort_cons_of_le hueDiffLe _ _ (fun x _ => hueDiffLe_none_left b x)]
  obtain ⟨k, rfl⟩ : ∃ k, count = k + 1 := ⟨count - 1, by omega⟩
  rw [List.take_succ_cons]
  rfl

/-! ## Facts about grayscale inputs (r = g = b) -/

theorem jsRound_le_add_half (q : ℚ) : (jsRound q : ℚ) ≤ q + 1/2 := by
  unfold jsRound
  exact_mod_cast Int.floor_le (q + 1/2)

theorem lt_jsRound_add_half (q : ℚ) : q - 1/2 < (jsRound q : ℚ) := by
  unfold jsRound
  have h := Int.lt_floor_add_one (q + 1/2)
  push_cast at h ⊢
  linarith

theorem jsRound_eq_of_near (n : ℤ) (q : ℚ) (h1 : (n : ℚ) - 1/2 < q)
    (h2 : q < (n : ℚ) + 1/2) : jsRound q = n := by
  unfold jsRound
  rw [Int.floor_eq_iff]
  push_cast
  constructor <;> linarith

/-- A gray `#VVVVVV` converts to hue 0, saturation 0, lightness
`round(100·v/255) = round(20v/51)`. -/
theorem rgbToHsl_gray (v : ℕ) :
    rgbToHsl v v v = ⟨0, 0, jsRound ((v : ℚ) * 20 / 51)⟩ := by
  unfold rgbToHsl
  dsimp only
  rw [max_self, max_self, min_self, min_self, if_pos (sub_self _)]
  have harg : ((v : ℚ) / 255 + (v : ℚ) / 255) / 2 * 100 = (v : ℚ) * 20 / 51 := by ring
  rw [harg]

/-- With zero saturation and hue 0 every channel of `hslToHex` is
`round(l/100·255)`. -/
theorem hslChannels_gray_hue0 (l : ℚ) :
    hslChannels 0 0 l =
      (jsRound (l / 100 * 255), jsRound (l / 100 * 255), jsRound (l / 100 * 255)) := by
  unfold hslChannels
  dsimp only
  rw [if_pos (show (0 : ℚ) ≤ 0 / 360 ∧ (0 : ℚ) / 360 < 1/6 by norm_num)]
  simp only [Prod.mk.injEq]
  refine ⟨?_, ?_, ?_⟩ <;> (congr 1; ring)

/-- With zero saturation and hue 180 every channel of `hslToHex` is likewise
`round(l/100·255)`. -/
theorem hslChannels_gray_hue180 (l : ℚ) :
    hslChannels 180 0 l =
      (jsRound (l / 100 * 255), jsRound (l / 100 * 255), jsRound (l / 100 * 255)) := by
  unfold hslChannels
  dsimp only
  rw [if_neg (show ¬((0 : ℚ) ≤ 180 / 360 ∧ (180 : ℚ) / 360 < 1/6) by norm_num),
    if_neg (show ¬((1 : ℚ)/6 ≤ 180 / 360 ∧ (180 : ℚ) / 360 < 2/6) by norm_num),
    if_neg (show ¬((2 : ℚ)/6 ≤ 180 / 360 ∧ (180 : ℚ) / 360 < 3/6) by norm_num),
    if_pos (show (3 : ℚ)/6 ≤ 180 / 360 ∧ (180 : ℚ) / 360 < 4/6 by norm_num)]
  simp only [Prod.mk.injEq]
  refine ⟨?_, ?_, ?_⟩ <;> (congr 1; ring)

/-- Rendering three in-range channels and re-parsing recovers them. -/
theorem renderParse : ∀ n : ℕ, n < 256 →
    parseRgb (removeFirstHash (renderRgb n n n).data) = some (n, n, n) := by
  with_unfolding_all decide

/-- The channel value written back for a gray of lightness `l` is within one
of any channel value `v` that rounds to that lightness. -/
theorem gray_channel_near (v : ℕ) (hv : v < 256) :
    |jsRound (((jsRound ((v : ℚ) * 20 / 51) : ℤ) : ℚ) / 100 * 255) - (v : ℤ)| ≤ 1 := by
  set L : ℤ := jsRound ((v : ℚ) * 20 / 51) with hL
  set W : ℤ := jsRound ((L : ℚ) / 100 * 255) with hW
  have h1 : ((v : ℚ) * 20 / 51) - 1/2 < (L : ℚ) := lt_jsRound_add_half _
  have h2 : (L : ℚ) ≤ (v : ℚ) * 20 / 51 + 1/2 := jsRound_le_add_half _
  have h3 : ((L : ℚ) / 100 * 255) - 1/2 < (W : ℚ) := lt_jsRound_add_half _
  have h4 : (W : ℚ) ≤ (L : ℚ) / 100 * 255 + 1/2 := jsRound_le_add_half _
  have hup : (W : ℚ) < ((v : ℤ) : ℚ) + 2 := by push_cast; linarith
  have hdown : ((v : ℤ) : ℚ) - 2 < (W : ℚ) := by push_cast; linarith
  have hup2 : W < (v : ℤ) + 2 := by exact_mod_cast hup
  have hdown2 : (v : ℤ) - 2 < W := by exact_mod_cast hdown
  rw [abs_le]
  omega

/-- Lightness of a gray is in `[0,100]`, and the written-back channel is in
`[0,255]`. -/
theorem gray_lightness_bounds (v : ℕ) (hv : v < 256) :
    0 ≤ jsRound ((v : ℚ) * 20 / 51) ∧ jsRound ((v : ℚ) * 20 / 51) ≤ 100 := by
  constructor
  · exact le_jsRound 0 _ (by positivity)
  · apply jsRound_le _ 100
    have : (v : ℚ) ≤ 255 := by exact_mod_cast Nat.le_of_lt_succ hv
    push_cast
    linarith

/-- `getComplementaryColor` on a gray hex: parse, convert (hue 0, sat 0,
lightness `L`), rotate to hue 180, and write back. -/
theorem getComplementaryColor_gray (n : ℕ) (hn : n < 256) :
    getComplementaryColor (renderRgb n n n) =
      some (hslToHex 180 0 ((jsRound ((n : ℚ) * 20 / 51) : ℤ) : ℚ)) := by
  unfold getComplementaryColor hexToHsl
  rw [renderParse n hn]
  simp only [Option.map_some']
  rw [rgbToHsl_gray n]
  norm_num

/-- Writing back hue 180, saturation 0, lightness `l` renders the gray
`#WWWWWW` with `w = round(l/100·255)`. -/
theorem hslToHex_gray (l : ℚ) :
    hslToHex 180 0 l = renderRgb (jsRound (l / 100 * 255)) (jsRound (l / 100 * 255))
      (jsRound (l / 100 * 255)) := by
  unfold hslToHex renderRgb
  rw [hslChannels_gray_hue180]

/-- The full complement of a gray `#MMMMMM`: a gray `#WWWWWW` whose channel
is the lightness written back, `w = round(round(20m/51)/100·255)`. -/
theorem comp_gray_render (m : ℕ) (hm : m < 256) :
    getComplementaryColor (renderRgb m m m) =
      some (renderRgb
        (jsRound (((jsRound ((m : ℚ) * 20 / 51) : ℤ) : ℚ) / 100 * 255))
        (jsRound (((jsRound ((m : ℚ) * 20 / 51) : ℤ) : ℚ) / 100 * 255))
        (jsRound (((jsRound ((m : ℚ) * 20 / 51) : ℤ) : ℚ) / 100 * 255))) := by
  rw [getComplementaryColor_gray m hm, hslToHex_gray]

/-- The double complement of a gray `#VVVVVV` is a gray `#WWWWWW` with
`|w − v| ≤ 1`. -/
theorem doubleComplementary_gray (n : ℕ) (hn : n < 256) :
    ∃ w : ℤ, 0 ≤ w ∧ w ≤ 255 ∧ |w - (n : ℤ)| ≤ 1 ∧
      doubleComplementary (renderRgb n n n) = some (renderRgb w w w) := by
  obtain ⟨hL0, hL100⟩ := gray_lightness_bounds n hn
  have hw0 : 0 ≤ jsRound (((jsRound ((n : ℚ) * 20 / 51) : ℤ) : ℚ) / 100 * 255) :=
    le_jsRound 0 _ (by positivity)
  have hw255 : jsRound (((jsRound ((n : ℚ) * 20 / 51) : ℤ) : ℚ) / 100 * 255) ≤ 255 := by
    apply jsRound_le _ 255
    have h100 : ((jsRound ((n : ℚ) * 20 / 51) : ℤ) : ℚ) ≤ 100 := by exact_mod_cast hL100
    have h0 : (0 : ℚ) ≤ ((jsRound ((n : ℚ) * 20 / 51) : ℤ) : ℚ) := by exact_mod_cast hL0
    push_cast
    linarith
  refine ⟨_, hw0, hw255, gray_channel_near n hn, ?_⟩
  unfold doubleComplementary
  rw [comp_gray_render n hn]
  simp only [Option.some_bind]
  obtain ⟨m2, hm2⟩ : ∃ m2 : ℕ,
      jsRound (((jsRound ((n : ℚ) * 20 / 51) : ℤ) : ℚ) / 100 * 255) = (m2 : ℤ) :=
    ⟨_, (Int.toNat_of_nonneg hw0).symm⟩
  rw [hm2, comp_gray_render m2 (by omega)]
  have hinner : jsRound ((m2 : ℚ) * 20 / 51) = jsRound ((n : ℚ) * 20 / 51) := by
    have hq : ((m2 : ℕ) : ℚ) =
        ((jsRound (((jsRound ((n : ℚ) * 20 / 51) : ℤ) : ℚ) / 100 * 255) : ℤ) : ℚ) := by
      exact_mod_cast congrArg (fun z : ℤ => (z : ℚ)) hm2.symm
    have h3 := lt_jsRound_add_half (((jsRound ((n : ℚ) * 20 / 51) : ℤ) : ℚ) / 100 * 255)
    have h4 := jsRound_le_add_half (((jsRound ((n : ℚ) * 20 / 51) : ℤ) : ℚ) / 100 * 255)
    apply jsRound_eq_of_near
    · rw [hq]; linarith
    · rw [hq]; linarith
  rw [hinner, hm2]

/-! ## Claim theorems -/

/-- C4.  Each of the five harmony search functions, for every collection,
base hex and non-negative count, returns a result that is (a) pairwise
ordered by the relation's difference score under the JS comparator (the
force-included base record of the complementary/triadic/split searches
carries no score and ties with everything), (b) at most `count` long, and
(c) a permutation of the full qualifying candidate list — i.e. contains all
qualifying colors, with no padding and no error — whenever fewer qualifying
candidates exist than `count`. -/
theorem C4_sorted_truncated_complete (colors : List Color) (baseHex : String) (count : ℕ) :
    ((findAnalogousColorsFromCollection colors baseHex count).Pairwise
        (fun x y => hueDiffLe x y = true) ∧
      (findAnalogousColorsFromCollection colors baseHex count).length ≤ count ∧
      ((analogousMatches colors baseHex).length < count →
        List.Perm (findAnalogousColorsFromCollection colors baseHex count)
          (analogousMatches colors baseHex))) ∧
    ((findComplementaryColorsFromCollection colors baseHex count).Pairwise
        (fun x y => hueDiffLe x y = true) ∧
      (findComplementaryColorsFromCollection colors baseHex count).length ≤ count ∧
      ((complementaryCandidates colors baseHex).length < count →
        List.Perm (findComplementaryColorsFromCollection colors baseHex count)
          (complementaryCandidates colors baseHex))) ∧
    ((findTriadicColorsFromCollection colors baseHex count).Pairwise
        (fun x y => hueDiffLe x y = true) ∧
      (findTriadicColorsFromCollection colors baseHex count).length ≤ count ∧
      ((triadicCandidates colors baseHex).length < count →
        List.Perm (findTriadicColorsFromCollection colors baseHex count)
          (triadicCandidates colors baseHex))) ∧
    ((findMonochromaticColorsFromCollection colors baseHex count).Pairwise
        (fun x y => lightnessDiffLe x y = true) ∧
      (findMonochromaticColorsFromCollection colors baseHex count).length ≤ count ∧
      ((monochromaticMatches colors baseHex).length < count →
        List.Perm (findMonochromaticColorsFromCollection colors baseHex count)
          (monochromaticMatches colors baseHex))) ∧
    ((findSplitComplementaryFromCollection colors baseHex count).Pairwise
        (fun x y => hueDiffLe x y = true) ∧
      (findSplitComplementaryFromCollection colors baseHex count).length ≤ count ∧
      ((splitCandidates colors baseHex).length < count →
        List.Perm (findSplitComplementaryFromCollection colors baseHex count)
          (splitCandidates colors baseHex))) :=
  ⟨⟨analogous_result_pairwise colors baseHex count,
    sortTake_length_le _ _ _, sortTake_perm_of_lt _ _ _⟩,
   ⟨complementary_result_pairwise colors baseHex count,
    sortTake_length_le _ _ _, sortTake_perm_of_lt _ _ _⟩,
   ⟨triadic_result_pairwise colors baseHex count,
    sortTake_length_le _ _ _, sortTake_perm_of_lt _ _ _⟩,
   ⟨mono_result_pairwise colors baseHex count,
    sortTake_length_le _ _ _, sortTake_perm_of_lt _ _ _⟩,
   ⟨split_result_pairwise colors baseHex count,
    sortTake_length_le _ _ _, sortTake_perm_of_lt _ _ _⟩⟩

/-- C3.  For every collection containing a record whose hex equals the base
hex (the first such record, as found by `colors.find`) and every count ≥ 1,
`findComplementaryColorsFromCollection` places that record first in the
result, and among the remaining entries no fallback match (score ≥ 1000,
i.e. a within-30°-of-base key penalized by +1000) ever precedes a primary
match (score ≤ 45, a within-45°-of-complement key). -/
theorem C3_base_first_fallback_last (colors : List Color) (baseHex : String)
    (count : ℕ) (b : Color)
    (hb : colors.find? (fun c => c.hex == baseHex) = some b) (hc : 1 ≤ count) :
    (findComplementaryColorsFromCollection colors baseHex count).head? =
      some ⟨b, none⟩ ∧
    (findComplementaryColorsFromCollection colors baseHex count).Pairwise
      (fun x y => ∀ dx dy, x.hueDiff = some dx → y.hueDiff = some dy →
        1000 ≤ dx → ¬ dy ≤ 45) := by
  obtain ⟨rest, heq, hsome, hres⟩ :=
    complementary_result_cons colors baseHex count b hb hc
  constructor
  · rw [hres]; rfl
  · refine (complementary_result_pairwise colors baseHex count).imp ?_
    intro x y hxy dx dy hdx hdy hdx1000 hdy45
    unfold hueDiffLe at hxy
    rw [hdx, hdy] at hxy
    simp only [decide_eq_true_eq] at hxy
    omega

/-- C10.  When the base color is present in the collection, the
complementary search's first result entry is the original record itself with
no `hueDiff` annotation, every other returned entry carries a numeric
`hueDiff`, and the comparator yields a tie (the JS `NaN` result, treated as
`+0` by the stable sort) whenever the unannotated base is compared in either
direction — which is what keeps the base in first position through the
sort. -/
theorem C10_base_unscored_nan_tie (colors : List Color) (baseHex : String)
    (count : ℕ) (b : Color)
    (hb : colors.find? (fun c => c.hex == baseHex) = some b) (hc : 1 ≤ count) :
    (findComplementaryColorsFromCollection colors baseHex count).head? =
      some ⟨b, none⟩ ∧
    (∀ x ∈ (findComplementaryColorsFromCollection colors baseHex count).tail,
      x.hueDiff.isSome) ∧
    (∀ x : AnnotatedColor,
      hueDiffLe ⟨b, none⟩ x = true ∧ hueDiffLe x ⟨b, none⟩ = true) := by
  obtain ⟨rest, heq, hsome, hres⟩ :=
    complementary_result_cons colors baseHex count b hb hc
  refine ⟨by rw [hres]; rfl, ?_, fun x => ⟨hueDiffLe_none_left b x, hueDiffLe_none_right b x⟩⟩
  intro x hx
  rw [hres] at hx
  simp only [List.tail_cons] at hx
  have hx2 : x ∈ stableSort hueDiffLe rest := List.mem_of_mem_take hx
  exact hsome x ((mem_stableSort hueDiffLe rest x).mp hx2)

/-- C7.  The suggestion aggregator returns the empty sequence on every
collection with fewer than 3 colors, and every suggestion it does return has
at least 3 colors (smaller ones are dropped by the final filter). -/
theorem C7_aggregator_bounds :
    (∀ colors : List Color, colors.length < 3 →
      generateSmartPaletteSuggestions colors = []) ∧
    (∀ (colors : List Color) (s : Suggestion),
      s ∈ generateSmartPaletteSuggestions colors → 3 ≤ s.colors.length) := by
  constructor
  · intro colors h
    unfold generateSmartPaletteSuggestions
    rw [if_pos h]
  · intro colors s hs
    unfold generateSmartPaletteSuggestions at hs
    by_cases hlen : colors.length < 3
    · rw [if_pos hlen] at hs
      exact absurd hs (by simp)
    · rw [if_neg hlen] at hs
      dsimp only at hs
      have := (List.mem_filter.mp hs).2
      exact of_decide_eq_true this

/-- C8.  The analogous search selects exactly the collection records whose
circular hue distance to the base hue is at most 60° (inclusive, nothing
else excluded); concretely, with base `#FF0000` (hue 0) and a collection at
hues 10 / 70 / 200, only the hue-10 color is returned. -/
theorem C8_analogous_window :
    (∀ (colors : List Color) (baseHex : String) (bHsl : Hsl) (c : Color) (cHsl : Hsl),
      hexToHsl baseHex = some bHsl → hexToHsl c.hex = some cHsl →
      ((⟨c, some (circHueDiff cHsl.h bHsl.h)⟩ : AnnotatedColor) ∈
          analogousMatches colors baseHex ↔
        c ∈ colors ∧ circHueDiff cHsl.h bHsl.h ≤ 60)) ∧
    findAnalogousColorsFromCollection
        [⟨"#FF2B00", "a"⟩, ⟨"#D5FF00", "b"⟩, ⟨"#00AAFF", "c"⟩] "#FF0000" 5 =
      [⟨⟨"#FF2B00", "a"⟩, some 10⟩] := by
  constructor
  · intro colors baseHex bHsl c cHsl hbase hc
    unfold analogousMatches
    dsimp only
    rw [hbase, List.mem_filterMap]
    constructor
    · rintro ⟨a, ha, hfa⟩
      rcases ha1 : hexToHsl a.hex with _ | ahsl <;> rw [ha1] at hfa
      · exact absurd hfa (by simp)
      · dsimp only at hfa
        split_ifs at hfa with hcond
        simp only [Option.some.injEq, AnnotatedColor.mk.injEq] at hfa
        obtain ⟨rfl, hkey⟩ := hfa
        have heq : ahsl = cHsl := by
          rw [ha1] at hc
          exact Option.some.inj hc
        subst heq
        exact ⟨ha, hcond⟩
    · rintro ⟨hmem, hle⟩
      refine ⟨c, hmem, ?_⟩
      rw [hc]
      dsimp only
      rw [if_pos hle]
  · with_unfolding_all decide

/-- C6.  The monochromatic search ranks qualifying (hue ≤ 15°) records
strictly by absolute lightness distance to the base, not by hue distance:
in general the result is pairwise ordered by `lightnessDiff`, and for a
two-record collection in which the hue-closer record has the larger
lightness distance, the hue-closer record ranks second. -/
theorem C6_mono_ranks_by_lightness :
    (∀ (colors : List Color) (baseHex : String) (count : ℕ),
      (findMonochromaticColorsFromCollection colors baseHex count).Pairwise
        fun x y => x.lightnessDiff ≤ y.lightnessDiff) ∧
    (∀ (baseHex : String) (count : ℕ) (c1 c2 : Color) (bHsl hsl1 hsl2 : Hsl),
      hexToHsl baseHex = some bHsl →
      hexToHsl c1.hex = some hsl1 → hexToHsl c2.hex = some hsl2 →
      circHueDiff hsl1.h bHsl.h ≤ 15 → circHueDiff hsl2.h bHsl.h ≤ 15 →
      circHueDiff hsl1.h bHsl.h < circHueDiff hsl2.h bHsl.h →
      |hsl2.l - bHsl.l| < |hsl1.l - bHsl.l| →
      2 ≤ count →
      findMonochromaticColorsFromCollection [c1, c2] baseHex count =
        [⟨c2, |hsl2.l - bHsl.l|⟩, ⟨c1, |hsl1.l - bHsl.l|⟩]) := by
  constructor
  · intro colors baseHex count
    refine (mono_result_pairwise colors baseHex count).imp ?_
    intro x y hxy
    unfold lightnessDiffLe at hxy
    simpa using hxy
  · intro baseHex count c1 c2 bHsl hsl1 hsl2 hb h1 h2 hq1 hq2 hcloser hlight hcount
    unfold findMonochromaticColorsFromCollection monochromaticMatches
    dsimp only
    rw [hb]
    rw [List.filterMap_cons, List.filterMap_cons, List.filterMap_nil]
    rw [h1, h2]
    dsimp only
    rw [if_pos hq1, if_pos hq2]
    show List.take count (stableSort lightnessDiffLe
      [⟨c1, |hsl1.l - bHsl.l|⟩, ⟨c2, |hsl2.l - bHsl.l|⟩]) = _
    rw [stableSort_pair lightnessDiffLe _ _ (by
      unfold lightnessDiffLe
      simp only [decide_eq_false_iff_not, decide_eq_true_eq]
      omega)]
    exact List.take_of_length_le (by simpa using hcount)

/-- C9.  `hslToHex(360, s, l)` — a hue `hexToHsl` can return, since
`Math.round(h·360)` yields 360 for hues just below 360°, e.g. for `#FF0102`
— falls outside all six hue sectors, so all three output channels equal
`round((l/100 − c/2)·255)` with `c = (1 − |2·l/100 − 1|)·s/100`: the hue is
silently discarded and an achromatic color is produced. -/
theorem C9_hue360_achromatic :
    hexToHsl "#FF0102" = some ⟨360, 100, 50⟩ ∧
    ∀ s l : ℚ, 0 ≤ s → s ≤ 100 → 0 ≤ l → l ≤ 100 →
      hslChannels 360 s l =
        (jsRound ((l / 100 - (1 - |2 * (l / 100) - 1|) * (s / 100) / 2) * 255),
         jsRound ((l / 100 - (1 - |2 * (l / 100) - 1|) * (s / 100) / 2) * 255),
         jsRound ((l / 100 - (1 - |2 * (l / 100) - 1|) * (s / 100) / 2) * 255)) := by
  constructor
  · with_unfolding_all decide
  · intro s l hs0 hs1 hl0 hl1
    unfold hslChannels
    dsimp only
    rw [if_neg (by norm_num), if_neg (by norm_num), if_neg (by norm_num),
      if_neg (by norm_num), if_neg (by norm_num), if_neg (by norm_num)]
    dsimp only
    simp only [zero_add]

/-- C1 as stated is false: the round trip `hslToHex(**hexToHsl(H))` is not
within ±1 per 8-bit channel for every valid hex.  For `#FF0001` the rounded
hue is 360, `hslToHex` discards it, and the result is `#000000` (red channel
off by 255); even away from that defect, `#02E4E6` comes back as `#02DFE3`
(green channel off by 5). -/
theorem C1_roundtrip_within_one_counterexample :
    roundTrip "#FF0001" = some "#000000" ∧
    hexWithin 1 "#FF0001" "#000000" = false ∧
    roundTrip "#02E4E6" = some "#02DFE3" ∧
    hexWithin 1 "#02E4E6" "#02DFE3" = false := by
  with_unfolding_all decide

/-- C1 amended.  The round trip recovers the color only approximately:
grayscale inputs (r = g = b) come back within ±1 per channel, but in general
the per-channel error reaches 5 (witness `#02E4E6`, within ±5 but not ±4)
and, when the rounded hue is 360, reaches 255 (witness `#FF0001`, whose
round trip is `#000000`). -/
theorem C1_roundtrip_amended :
    (∀ v : ℕ, v < 256 →
      (let hsl := rgbToHsl v v v
       let ch := hslChannels hsl.h hsl.s hsl.l
       |ch.1 - v| ≤ 1 ∧ |ch.2.1 - v| ≤ 1 ∧ |ch.2.2 - v| ≤ 1)) ∧
    roundTrip "#02E4E6" = some "#02DFE3" ∧
    hexWithin 5 "#02E4E6" "#02DFE3" = true ∧
    hexWithin 4 "#02E4E6" "#02DFE3" = false ∧
    roundTrip "#FF0001" = some "#000000" ∧
    hexWithin 255 "#FF0001" "#000000" = true ∧
    hexWithin 254 "#FF0001" "#000000" = false := by
  constructor
  · intro v hv
    dsimp only
    rw [rgbToHsl_gray v]
    dsimp only
    simp only [Int.cast_zero]
    rw [hslChannels_gray_hue0]
    dsimp only
    have key := gray_channel_near v hv
    exact ⟨key, key, key⟩
  · with_unfolding_all decide

theorem C1_roundtrip_amended_witness :
    (7 : ℕ) < 256 ∧
    (let hsl := rgbToHsl 7 7 7
     let ch := hslChannels hsl.h hsl.s hsl.l
     |ch.1 - (7 : ℕ)| ≤ 1 ∧ |ch.2.1 - (7 : ℕ)| ≤ 1 ∧ |ch.2.2 - (7 : ℕ)| ≤ 1) :=
  ⟨by omega, C1_roundtrip_amended.1 7 (by omega)⟩

/-- C2 as stated is false: the hue field of `hexToHsl` is not always in
`[0,360)` — for `#FF0001` it is exactly 360. -/
theorem C2_hue_range_counterexample :
    hexToHsl "#FF0001" = some ⟨360, 100, 50⟩ ∧ ¬ ((360 : ℤ) < 360) :=
  ⟨by with_unfolding_all decide, by omega⟩

/-- C2 amended.  For every valid 6-digit hex input, the `h` field returned
by `hexToHsl` is in the closed interval `[0,360]` — with 360 attained, e.g.
at `#FF0001` — and the `s` and `l` fields are in `[0,100]`. -/
theorem C2_bounds_amended :
    (∀ (hex : String) (hsl : Hsl), hexToHsl hex = some hsl →
      0 ≤ hsl.h ∧ hsl.h ≤ 360 ∧ 0 ≤ hsl.s ∧ hsl.s ≤ 100 ∧ 0 ≤ hsl.l ∧ hsl.l ≤ 100) ∧
    hexToHsl "#FF0001" = some ⟨360, 100, 50⟩ :=
  ⟨hexToHsl_bounds, by with_unfolding_all decide⟩

theorem C2_bounds_amended_witness :
    (0 : ℤ) ≤ 0 ∧ (0 : ℤ) ≤ 360 ∧ (0 : ℤ) ≤ 100 ∧ (100 : ℤ) ≤ 100 ∧
      (0 : ℤ) ≤ 50 ∧ (50 : ℤ) ≤ 100 :=
  C2_bounds_amended.1 "#FF0000" ⟨0, 100, 50⟩ (by with_unfolding_all decide)

/-- C5 as stated is false: `getComplementaryColor` applied twice does not
always return within rounding (±1 per channel) of the start — for `#000002`
the double complement is `#000000`, with the blue channel off by 2. -/
theorem C5_double_complement_counterexample :
    doubleComplementary "#000002" = some "#000000" ∧
    hexWithin 1 "#000002" "#000000" = false := by
  with_unfolding_all decide

/-- C5 amended.  The double complement returns to the start only
approximately: grayscale inputs return within ±1 per channel, but in general
the per-channel error reaches 5 (witness `#02E4E6`, whose double complement
`#02DFE3` is within ±5 but not ±4). -/
theorem C5_double_complement_amended :
    (∀ v : ℕ, v < 256 → doubleCompWithinOne (renderRgb v v v) = true) ∧
    doubleComplementary "#02E4E6" = some "#02DFE3" ∧
    hexWithin 5 "#02E4E6" "#02DFE3" = true ∧
    hexWithin 4 "#02E4E6" "#02DFE3" = false := by
  constructor
  · intro v hv
    obtain ⟨w, hw0, hw255, hnear, heq⟩ := doubleComplementary_gray v hv
    unfold doubleCompWithinOne
    rw [heq]
    dsimp only
    unfold hexWithin
    rw [renderParse v hv]
    have hcast : w = ((w.toNat : ℕ) : ℤ) := (Int.toNat_of_nonneg hw0).symm
    rw [hcast, renderParse w.toNat (by omega)]
    dsimp only
    apply decide_eq_true
    unfold channelsWithin
    dsimp only
    rw [abs_le] at hnear
    refine ⟨?_, ?_, ?_⟩ <;> (rw [abs_le]; constructor <;> omega)
  · with_unfolding_all decide

theorem C5_double_complement_amended_witness :
    (7 : ℕ) < 256 ∧ doubleCompWithinOne (renderRgb 7 7 7) = true :=
  ⟨by omega, C5_double_complement_amended.1 7 (by omega)⟩

theorem C3_base_first_fallback_last_witness :
    (findComplementaryColorsFromCollection
        [⟨"#FF0000", "r"⟩, ⟨"#00FFFF", "cy"⟩] "#FF0000" 4).head? =
      some ⟨⟨"#FF0000", "r"⟩, none⟩ :=
  (C3_base_first_fallback_last [⟨"#FF0000", "r"⟩, ⟨"#00FFFF", "cy"⟩] "#FF0000" 4
    ⟨"#FF0000", "r"⟩ (by with_unfolding_all decide) (by omega)).1

theorem C10_base_unscored_nan_tie_witness :
    (findComplementaryColorsFromCollection [⟨"#FF0000", "r"⟩] "#FF0000" 1).head? =
      some ⟨⟨"#FF0000", "r"⟩, none⟩ :=
  (C10_base_unscored_nan_tie [⟨"#FF0000", "r"⟩] "#FF0000" 1 ⟨"#FF0000", "r"⟩
    (by with_unfolding_all decide) (by omega)).1

theorem C4_sorted_truncated_complete_witness :
    List.Perm (findAnalogousColorsFromCollection [] "#FF0000" 1)
      (analogousMatches [] "#FF0000") :=
  (C4_sorted_truncated_complete [] "#FF0000" 1).1.2.2 (by with_unfolding_all decide)

theorem C6_mono_ranks_by_lightness_witness :
    findMonochromaticColorsFromCollection
        [⟨"#FFD0CC", "a"⟩, ⟨"#FF401A", "b"⟩] "#FF0000" 5 =
      [⟨⟨"#FF401A", "b"⟩, |(55 : ℤ) - 50|⟩, ⟨⟨"#FFD0CC", "a"⟩, |(90 : ℤ) - 50|⟩] :=
  C6_mono_ranks_by_lightness.2 "#FF0000" 5 ⟨"#FFD0CC", "a"⟩ ⟨"#FF401A", "b"⟩
    ⟨0, 100, 50⟩ ⟨5, 100, 90⟩ ⟨10, 100, 55⟩
    (by with_unfolding_all decide) (by with_unfolding_all decide)
    (by with_unfolding_all decide) (by with_unfolding_all decide)
    (by with_unfolding_all decide) (by with_unfolding_all decide)
    (by with_unfolding_all decide) (by omega)

theorem C7_aggregator_bounds_witness :
    ([] : List Color).length < 3 ∧ generateSmartPaletteSuggestions [] = [] :=
  ⟨by simp, C7_aggregator_bounds.1 [] (by simp)⟩

theorem C8_analogous_window_witness :
    (⟨⟨"#FF2B00", "a"⟩, some (circHueDiff 10 0)⟩ : AnnotatedColor) ∈
        analogousMatches [⟨"#FF2B00", "a"⟩, ⟨"#D5FF00", "b"⟩] "#FF0000" ↔
      (⟨"#FF2B00", "a"⟩ : Color) ∈ [⟨"#FF2B00", "a"⟩, ⟨"#D5FF00", "b"⟩] ∧
        circHueDiff 10 0 ≤ 60 :=
  C8_analogous_window.1 [⟨"#FF2B00", "a"⟩, ⟨"#D5FF00", "b"⟩] "#FF0000"
    ⟨0, 100, 50⟩ ⟨"#FF2B00", "a"⟩ ⟨10, 100, 50⟩
    (by with_unfolding_all decide) (by with_unfolding_all decide)

theorem C9_hue360_achromatic_witness :
    hslChannels 360 100 50 =
      (jsRound ((50 / 100 - (1 - |2 * ((50 : ℚ) / 100) - 1|) * (100 / 100) / 2) * 255),
       jsRound ((50 / 100 - (1 - |2 * ((50 : ℚ) / 100) - 1|) * (100 / 100) / 2) * 255),
       jsRound ((50 / 100 - (1 - |2 * ((50 : ℚ) / 100) - 1|) * (100 / 100) / 2) * 255)) :=
  C9_hue360_achromatic.2 100 50 (by norm_num) (by norm_num) (by norm_num) (by norm_num)

end ColorUtils
